import Mathlib

/-!
# game.js: generalised rock-paper-scissors with an HMAC commitment

A shallow embedding of `src/game.js` (classes `Game`, `Validator`, `Menu` and the
top-level script) and the properties of its outcome rule, its validation and its
commit/reveal ordering.

Conventions of the embedding.

* JavaScript numbers that hold indices are integers; `halfMoves = (moves.length - 1) / 2`
  is a true division, so it is a rational number (`ℚ`), not an integer quotient.
* The two random draws of the constructor (`crypto.randomBytes(32)` and
  `Math.floor(Math.random() * moves.length)`) and the keyed hash
  (`createHmac("sha3-256", key).update(m).digest("hex")`) are parameters.
* What the process writes and reads is an explicit list of `Event`s.
-/

namespace RPS

/-! ## Strings as JavaScript sees them -/

/-- Length of a string in UTF-16 code units (`String.prototype.length`). -/
def jsLength (s : String) : Nat :=
  (s.data.map fun c => if c.toNat < 0x10000 then 1 else 2).sum

/-- `s.padStart(targetLength)`: pad with spaces on the left; `none` is a target of `-Infinity`. -/
def padStart (s : String) (targetLength : Option Nat) : String :=
  match targetLength with
  | none => s
  | some w => String.mk (List.replicate (w - jsLength s) ' ') ++ s

/-- `s.padEnd(targetLength, "-")`: pad with dashes on the right. -/
def padEnd (s : String) (targetLength : Option Nat) : String :=
  match targetLength with
  | none => s
  | some w => s ++ String.mk (List.replicate (w - jsLength s) '-')

/-- `Math.max(...moves.map((move) => move.length))`; `none` is `-Infinity` (empty list). -/
def maxLength : List String → Option Nat
  | [] => none
  | m :: ms => some (ms.foldl (fun acc x => max acc (jsLength x)) (jsLength m))

/-- `moves.indexOf(x)`: the first position of `x`, or `-1`. -/
def indexOf (moves : List String) (x : String) : Int :=
  if moves.indexOf x < moves.length then (moves.indexOf x : Int) else -1

/-- One lower-case hexadecimal digit. -/
def hexDigit (d : Nat) : Char :=
  if d < 10 then Char.ofNat (48 + d) else Char.ofNat (87 + d)

/-- A byte of a `Buffer`. -/
abbrev Byte := Fin 256

/-- `buffer.toString("hex")`: two hexadecimal digits per byte. -/
def toHex (bytes : List Byte) : String :=
  String.mk (bytes.flatMap fun b => [hexDigit (b.val / 16), hexDigit (b.val % 16)])

/-- White space that `parseInt` skips (ECMAScript `StrWhiteSpaceChar`). -/
def isStrWhiteSpaceChar (c : Char) : Bool :=
  decide (c.toNat ∈ [0x9, 0xA, 0xB, 0xC, 0xD, 0x20, 0xA0, 0x1680, 0x2028, 0x2029,
    0x202F, 0x205F, 0x3000, 0xFEFF]) || (decide (0x2000 ≤ c.toNat) && decide (c.toNat ≤ 0x200A))

/-- `parseInt(s, 10)`: skip white space, read a sign, read the longest run of decimal
digits; `none` is `NaN`. The value is kept exact (a double rounds long digit runs, which
does not change how the result compares with an array length). -/
def parseInt (s : String) : Option Int :=
  let t := s.data.dropWhile isStrWhiteSpaceChar
  let body := match t with
    | '-' :: u => u
    | '+' :: u => u
    | _ => t
  let digits := body.takeWhile Char.isDigit
  let value : Int := (digits.foldl (fun acc c => 10 * acc + (c.toNat - 48)) 0 : Nat)
  if digits = [] then none
  else match t with
    | '-' :: _ => some (-value)
    | _ => some value

/-! ## Outcomes and the two copies of the comparison rule -/

/-- Result of a round, from the point of view of the first index. -/
inductive Outcome where
  | Win
  | Lose
  | Draw
  deriving DecidableEq, Repr

/-- The text `printHelp` pushes into a row. -/
def Outcome.cell : Outcome → String
  | Outcome.Draw => "Draw"
  | Outcome.Win => "Win"
  | Outcome.Lose => "Lose"

/-- The text `play` logs. -/
def Outcome.announce : Outcome → String
  | Outcome.Draw => "Draw!"
  | Outcome.Win => "You win!"
  | Outcome.Lose => "You lose!"

/-- `this.halfMoves = (moves.length - 1) / 2` for a list of `n` moves. -/
def halfMovesOf (n : Nat) : ℚ := ((n : ℚ) - 1) / 2

/-- The `if`/`else if`/`else` of `Game.play` (lines 65-76). -/
def playOutcome (halfMoves : ℚ) (userMoveIndex computerMoveIndex : Int) : Outcome :=
  if userMoveIndex = computerMoveIndex then Outcome.Draw
  else if (computerMoveIndex > userMoveIndex ∧
        (computerMoveIndex : ℚ) ≤ (userMoveIndex : ℚ) + halfMoves) ∨
      (computerMoveIndex < userMoveIndex ∧
        (computerMoveIndex : ℚ) < (userMoveIndex : ℚ) - halfMoves) then Outcome.Win
  else Outcome.Lose

/-- The `if`/`else if`/`else` of the inner loop of `Game.printHelp` (lines 43-52). -/
def helpOutcome (halfMoves : ℚ) (index1 index2 : Nat) : Outcome :=
  if index1 = index2 then Outcome.Draw
  else if (index2 > index1 ∧ (index2 : ℚ) ≤ (index1 : ℚ) + halfMoves) ∨
      (index2 < index1 ∧ (index2 : ℚ) < (index1 : ℚ) - halfMoves) then Outcome.Win
  else Outcome.Lose

/-- The rule as section 4.2 of the specification words it: a draw on equal indices,
otherwise the forward circular distance `d = (b - a) mod N` decides, a win when
`1 ≤ d ≤ HalfSpan` with `HalfSpan = (N - 1) / 2`. -/
def resolveSpec (N : Nat) (a b : Nat) : Outcome :=
  if a = b then Outcome.Draw
  else if 1 ≤ ((b : Int) - (a : Int)) % (N : Int) ∧
      ((b : Int) - (a : Int)) % (N : Int) ≤ (((N - 1) / 2 : Nat) : Int) then Outcome.Win
  else Outcome.Lose

/-! ## Events -/

/-- What the process does that is visible from outside. -/
inductive Event where
  /-- A `console.log` line. -/
  | log (line : String)
  /-- The query written by `rl.question`. -/
  | question (query : String)
  /-- A line read from standard input and handed to the callback of `rl.question`. -/
  | answer (line : String)
  /-- A call of `process.exit`. -/
  | exit (code : Nat)
  deriving DecidableEq, Repr

/-! ## class Game -/

/-- The fields of a `Game` object. -/
structure Game where
  moves : List String
  halfMoves : ℚ
  key : List Byte
  computerMove : String
  hmac : String

/-- The constructor of `Game`. `H` is the keyed hash in hexadecimal, `key` the bytes
drawn by `crypto.randomBytes(32)`, `r` the value of
`Math.floor(Math.random() * moves.length)`. Without a move at `r` the hash update
throws, which is `none`. -/
def Game.constructor (H : List Byte → String → String) (moves : List String)
    (key : List Byte) (r : Nat) : Option Game :=
  match moves.get? r with
  | none => none
  | some computerMove =>
    some
      { moves := moves
        halfMoves := halfMovesOf moves.length
        key := key
        computerMove := computerMove
        hmac := H key computerMove }

/-- `printHmac()`. -/
def Game.printHmac (g : Game) : List Event :=
  [Event.log ("HMAC: " ++ g.hmac)]

/-- `printMoves()`. -/
def Game.printMoves (g : Game) : List Event :=
  [Event.log "Available moves:"] ++
    (g.moves.enum.map fun p => Event.log (toString (p.1 + 1) ++ " - " ++ p.2)) ++
    [Event.log "0 - exit", Event.log "? - help"]

/-- The array `row` that `printHelp` builds for `move1` at `index1`. -/
def Game.helpRow (g : Game) (index1 : Nat) (move1 : String) : List String :=
  move1 :: g.moves.enum.map fun p => (helpOutcome g.halfMoves index1 p.1).cell

/-- All the rows of `printHelp`, in order. -/
def Game.helpTable (g : Game) : List (List String) :=
  g.moves.enum.map fun p => g.helpRow p.1 p.2

/-- A table line: the cells padded to `cellWidth`, joined and framed by bars. -/
def tableLine (cellWidth : Option Nat) (row : List String) : String :=
  "|" ++ "|".intercalate (row.map fun cell => padStart cell cellWidth) ++ "|"

/-- The array `["PC Moves", ...this.moves]` of column titles. -/
def Game.helpHeader (g : Game) : List String :=
  "PC Moves" :: g.moves

/-- `printHelp()`. -/
def Game.printHelp (g : Game) : List Event :=
  let cellWidth := (maxLength g.moves).map (· + 2)
  let separator := padEnd "+" (cellWidth.map (· + 58)) ++ "+"
  [Event.log "Help:", Event.log separator,
    Event.log (tableLine cellWidth g.helpHeader), Event.log separator] ++
  g.helpTable.flatMap fun row => [Event.log (tableLine cellWidth row), Event.log separator]

/-- The outcome `play(userMoveIndex)` announces. -/
def Game.result (g : Game) (userMoveIndex : Nat) : Outcome :=
  playOutcome g.halfMoves userMoveIndex (indexOf g.moves g.computerMove)

/-- `play(userMoveIndex)`. -/
def Game.play (g : Game) (userMoveIndex : Nat) : List Event :=
  [Event.log ("Your move: " ++ g.moves.getD userMoveIndex "undefined"),
    Event.log ("Computer move: " ++ g.computerMove),
    Event.log (g.result userMoveIndex).announce,
    Event.log ("HMAC key: " ++ toHex g.key)]

/-! ## class Validator -/

/-- `Validator.validateArgs(args)`: `Except.error` is a run that ended in `process.exit`,
with what it wrote; `Except.ok` is a normal return. -/
def Validator.validateArgs (args : List String) : Except (List Event) Unit :=
  if args.length < 3 ∨ args.length % 2 = 0 then
    Except.error
      [Event.log "Error: Incorrect number of arguments. Must be an odd number >= 3.",
        Event.log "Example: node game.js rock paper scissors lizard Spock",
        Event.exit 1]
  else if args.toFinset.card ≠ args.length then
    Except.error
      [Event.log "Error: Arguments must be non-repeating.",
        Event.log "Example: node game.js rock paper scissors lizard Spock",
        Event.exit 1]
  else Except.ok ()

/-! ## class Menu -/

/-- The index check of `promptMove`: `parseInt(answer, 10) - 1`, rejected when `NaN`,
negative or not below the number of moves. -/
def acceptedIndex (g : Game) (answer : String) : Option Nat :=
  match parseInt answer with
  | none => none
  | some v =>
    if v - 1 < 0 ∨ v - 1 ≥ (g.moves.length : Int) then none else some (v - 1).toNat

/-- `promptMove()`, run on the lines that standard input still holds. -/
def Menu.promptMove (g : Game) : List String → List Event
  | [] => g.printMoves ++ [Event.question "Enter your move: "]
  | answer :: rest =>
    g.printMoves ++ [Event.question "Enter your move: ", Event.answer answer] ++
      if answer = "0" then [Event.log "Exiting...", Event.exit 0]
      else if answer = "?" then g.printHelp ++ Menu.promptMove g rest
      else match acceptedIndex g answer with
        | none => [Event.log "Error: Invalid move."] ++ Menu.promptMove g rest
        | some userMoveIndex => g.play userMoveIndex ++ [Event.exit 0]

/-- `start()`. -/
def Menu.start (g : Game) (answers : List String) : List Event :=
  g.printHmac ++ Menu.promptMove g answers

/-! ## The script -/

/-- A run of the script: what it did and the `Game` it constructed, if it got there. -/
structure Run where
  events : List Event
  game : Option Game

/-- Lines 158-163: validate, construct the game, start the menu. -/
def main (H : List Byte → String → String) (args : List String) (key : List Byte) (r : Nat)
    (answers : List String) : Run :=
  match Validator.validateArgs args with
  | Except.error events => { events := events, game := none }
  | Except.ok _ =>
    match Game.constructor H args key r with
    | none => { events := [], game := none }
    | some g => { events := Menu.start g answers, game := some g }

/-! ## Recognising the reveal line -/

/-- The text that opens the line revealing the key. -/
def keyLineHead : List Char := "HMAC key: ".data

/-- An event is a key line when it is one `console.log` call whose text opens with
`HMAC key: `, the text `play` puts before the key. -/
def Event.isKeyLine : Event → Bool
  | Event.log line => keyLineHead.isPrefixOf line.data
  | _ => false

/-! ## Concrete inputs -/

/-- The moves of the three-move game. -/
def rps3 : List String := ["rock", "paper", "scissors"]

/-- The moves of the five-move game. -/
def rps5 : List String := ["rock", "paper", "scissors", "lizard", "spock"]

/-- A keyed hash to run the constructor on in examples: it ignores its arguments. -/
def constHash : List Byte → String → String := fun _ _ => "00"

/-! ## The comparison rule on an odd number of moves -/

theorem halfMovesOf_odd (k : Nat) : halfMovesOf (2 * k + 1) = (k : ℚ) := by
  unfold halfMovesOf
  push_cast
  ring

/-- On `2 * k + 1` moves the rational comparisons of `play` are comparisons of naturals. -/
theorem code_condition_odd (k i j : Nat) :
    (((j : Int) > (i : Int) ∧
        ((j : Int) : ℚ) ≤ ((i : Int) : ℚ) + halfMovesOf (2 * k + 1)) ∨
      ((j : Int) < (i : Int) ∧
        ((j : Int) : ℚ) < ((i : Int) : ℚ) - halfMovesOf (2 * k + 1))) ↔
      ((i < j ∧ j ≤ i + k) ∨ (j < i ∧ j + k < i)) := by
  have h1 : ((j : Int) : ℚ) ≤ ((i : Int) : ℚ) + (k : ℚ) ↔ j ≤ i + k := by
    constructor
    · intro h; exact_mod_cast h
    · intro h; exact_mod_cast h
  have h2 : ((j : Int) : ℚ) < ((i : Int) : ℚ) - (k : ℚ) ↔ j + k < i := by
    rw [lt_sub_iff_add_lt]
    constructor
    · intro h; exact_mod_cast h
    · intro h; exact_mod_cast h
  simp only [halfMovesOf_odd, h1, h2, gt_iff_lt, Nat.cast_lt]

theorem playOutcome_odd (k i j : Nat) :
    playOutcome (halfMovesOf (2 * k + 1)) i j =
      if i = j then Outcome.Draw
      else if (i < j ∧ j ≤ i + k) ∨ (j < i ∧ j + k < i) then Outcome.Win
      else Outcome.Lose := by
  unfold playOutcome
  simp only [code_condition_odd, Nat.cast_inj]

theorem helpOutcome_odd (k i j : Nat) :
    helpOutcome (halfMovesOf (2 * k + 1)) i j =
      if i = j then Outcome.Draw
      else if (i < j ∧ j ≤ i + k) ∨ (j < i ∧ j + k < i) then Outcome.Win
      else Outcome.Lose := by
  have h1 : (j : ℚ) ≤ (i : ℚ) + (k : ℚ) ↔ j ≤ i + k := by
    constructor
    · intro h; exact_mod_cast h
    · intro h; exact_mod_cast h
  have h2 : (j : ℚ) < (i : ℚ) - (k : ℚ) ↔ j + k < i := by
    rw [lt_sub_iff_add_lt]
    constructor
    · intro h; exact_mod_cast h
    · intro h; exact_mod_cast h
  simp only [helpOutcome, halfMovesOf_odd, h1, h2, gt_iff_lt]

theorem odd_decompose (N : Nat) (hodd : N % 2 = 1) : N = 2 * ((N - 1) / 2) + 1 := by
  omega

/-- Claim C1: the outcome rule of `Game.play` is antisymmetric. For odd `N ≥ 3`, with
`halfMoves = (N - 1) / 2`, and distinct indices `i`, `j` below `N`, the outcome for
(user `i`, computer `j`) is `Win` exactly when the outcome for (user `j`, computer `i`)
is `Lose`, and the two ordered pairs are never both `Win`. -/
theorem play_antisymmetric (N i j : Nat) (hodd : N % 2 = 1) (_h3 : 3 ≤ N)
    (hi : i < N) (hj : j < N) (hij : i ≠ j) :
    (playOutcome (halfMovesOf N) i j = Outcome.Win ↔
        playOutcome (halfMovesOf N) j i = Outcome.Lose) ∧
      ¬ (playOutcome (halfMovesOf N) i j = Outcome.Win ∧
        playOutcome (halfMovesOf N) j i = Outcome.Win) := by
  have hN := odd_decompose N hodd
  generalize (N - 1) / 2 = k at hN
  subst hN
  rw [playOutcome_odd, playOutcome_odd]
  have hji : j ≠ i := fun h => hij h.symm
  simp only [hij, hji, if_false]
  by_cases c1 : (i < j ∧ j ≤ i + k) ∨ (j < i ∧ j + k < i) <;>
    by_cases c2 : (j < i ∧ i ≤ j + k) ∨ (i < j ∧ i + k < j) <;>
    simp [c1, c2] <;> omega


theorem win_count_odd (k i : Nat) (hi : i < 2 * k + 1) :
    ((Finset.range (2 * k + 1)).filter fun j =>
      (i < j ∧ j ≤ i + k) ∨ (j < i ∧ j + k < i)).card = k := by
  have hset : ((Finset.range (2 * k + 1)).filter fun j =>
      (i < j ∧ j ≤ i + k) ∨ (j < i ∧ j + k < i)) =
      Finset.Ioc i (min (i + k) (2 * k)) ∪ Finset.range (i - k) := by
    ext j
    simp only [Finset.mem_filter, Finset.mem_range, Finset.mem_union, Finset.mem_Ioc]
    omega
  have hdisj : Disjoint (Finset.Ioc i (min (i + k) (2 * k))) (Finset.range (i - k)) := by
    rw [Finset.disjoint_left]
    intro j h1 h2
    simp only [Finset.mem_Ioc, Finset.mem_range] at h1 h2
    omega
  rw [hset, Finset.card_union_of_disjoint hdisj, Nat.card_Ioc, Finset.card_range]
  omega

theorem lose_count_odd (k i : Nat) (hi : i < 2 * k + 1) :
    ((Finset.range (2 * k + 1)).filter fun j =>
      i ≠ j ∧ ¬ ((i < j ∧ j ≤ i + k) ∨ (j < i ∧ j + k < i))).card = k := by
  have hset : ((Finset.range (2 * k + 1)).filter fun j =>
      i ≠ j ∧ ¬ ((i < j ∧ j ≤ i + k) ∨ (j < i ∧ j + k < i))) =
      Finset.Ico (i - k) i ∪ Finset.Ico (i + k + 1) (2 * k + 1) := by
    ext j
    simp only [Finset.mem_filter, Finset.mem_range, Finset.mem_union, Finset.mem_Ico]
    omega
  have hdisj : Disjoint (Finset.Ico (i - k) i) (Finset.Ico (i + k + 1) (2 * k + 1)) := by
    rw [Finset.disjoint_left]
    intro j h1 h2
    simp only [Finset.mem_Ico] at h1 h2
    omega
  rw [hset, Finset.card_union_of_disjoint hdisj, Nat.card_Ico, Nat.card_Ico]
  omega

theorem playOutcome_odd_win_iff (k i j : Nat) :
    playOutcome (halfMovesOf (2 * k + 1)) i j = Outcome.Win ↔
      (i < j ∧ j ≤ i + k) ∨ (j < i ∧ j + k < i) := by
  rw [playOutcome_odd]
  by_cases hij : i = j
  · subst hij
    simp
  · by_cases c : (i < j ∧ j ≤ i + k) ∨ (j < i ∧ j + k < i) <;> simp [hij, c]

theorem playOutcome_odd_lose_iff (k i j : Nat) :
    playOutcome (halfMovesOf (2 * k + 1)) i j = Outcome.Lose ↔
      i ≠ j ∧ ¬ ((i < j ∧ j ≤ i + k) ∨ (j < i ∧ j + k < i)) := by
  rw [playOutcome_odd]
  by_cases hij : i = j
  · subst hij
    simp
  · by_cases c : (i < j ∧ j ≤ i + k) ∨ (j < i ∧ j + k < i) <;> simp [hij, c]

/-- Claim C2: the outcome rule is balanced. For odd `N ≥ 3` and every index `i` below
`N`, exactly `(N - 1) / 2` indices `j` below `N` give `Win` for `(i, j)` and exactly
`(N - 1) / 2` give `Lose`; that number is the `halfMoves` of the constructor. -/
theorem play_balanced (N i : Nat) (hodd : N % 2 = 1) (_h3 : 3 ≤ N) (hi : i < N) :
    halfMovesOf N = (((N - 1) / 2 : Nat) : ℚ) ∧
      ((Finset.range N).filter fun (j : Nat) =>
        playOutcome (halfMovesOf N) i j = Outcome.Win).card = (N - 1) / 2 ∧
      ((Finset.range N).filter fun (j : Nat) =>
        playOutcome (halfMovesOf N) i j = Outcome.Lose).card = (N - 1) / 2 := by
  have hN := odd_decompose N hodd
  have hk : (N - 1) / 2 = (N - 1) / 2 := rfl
  generalize (N - 1) / 2 = k at hN hk ⊢
  subst hN
  refine ⟨halfMovesOf_odd k, ?_, ?_⟩
  · rw [Finset.filter_congr (fun j _ => playOutcome_odd_win_iff k i j)]
    exact win_count_odd k i hi
  · rw [Finset.filter_congr (fun j _ => playOutcome_odd_lose_iff k i j)]
    exact lose_count_odd k i hi

theorem circular_distance (N i j : Nat) (hi : i < N) (hj : j < N) :
    ((j : Int) - (i : Int)) % (N : Int) =
      if i ≤ j then (j : Int) - (i : Int) else (j : Int) - (i : Int) + (N : Int) := by
  by_cases h : i ≤ j
  · rw [if_pos h]
    apply Int.emod_eq_of_lt <;> omega
  · rw [if_neg h, ← Int.add_emod_self]
    apply Int.emod_eq_of_lt <;> omega

theorem resolveSpec_odd (k i j : Nat) (hi : i < 2 * k + 1) (hj : j < 2 * k + 1) :
    resolveSpec (2 * k + 1) i j =
      if i = j then Outcome.Draw
      else if (i < j ∧ j ≤ i + k) ∨ (j < i ∧ j + k < i) then Outcome.Win
      else Outcome.Lose := by
  unfold resolveSpec
  by_cases hij : i = j
  · simp [hij]
  · simp only [hij, if_false]
    have hk : (2 * k + 1 - 1) / 2 = k := by omega
    rw [hk, circular_distance (2 * k + 1) i j hi hj]
    have hiff : (1 ≤ (if i ≤ j then (j : Int) - (i : Int)
          else (j : Int) - (i : Int) + ((2 * k + 1 : Nat) : Int)) ∧
        (if i ≤ j then (j : Int) - (i : Int)
          else (j : Int) - (i : Int) + ((2 * k + 1 : Nat) : Int)) ≤ (k : Int)) ↔
        ((i < j ∧ j ≤ i + k) ∨ (j < i ∧ j + k < i)) := by
      split <;> push_cast <;> omega
    by_cases c : (i < j ∧ j ≤ i + k) ∨ (j < i ∧ j + k < i)
    · rw [if_pos c, if_pos (hiff.mpr c)]
    · rw [if_neg c, if_neg (fun h => c (hiff.mp h))]

/-- Claim C3: the comparison written in the code agrees with the circular-distance
rule. For odd `N ≥ 3` and `i`, `j` below `N` with `i ≠ j`, the condition
`(j > i && j <= i + halfMoves) || (j < i && j < i - halfMoves)` holds exactly when
`1 ≤ (j - i) mod N ≤ halfMoves`; hence the branch of `play` and the branch of `printHelp`
both give the outcome of the rule worded in the specification, at every cell of the
`N × N` matrix. -/
theorem play_help_match_circular_distance (N i j : Nat) (hodd : N % 2 = 1) (_h3 : 3 ≤ N)
    (hi : i < N) (hj : j < N) :
    (i ≠ j →
      (((j : Int) > (i : Int) ∧ ((j : Int) : ℚ) ≤ ((i : Int) : ℚ) + halfMovesOf N) ∨
        ((j : Int) < (i : Int) ∧ ((j : Int) : ℚ) < ((i : Int) : ℚ) - halfMovesOf N) ↔
      1 ≤ ((j : Int) - (i : Int)) % (N : Int) ∧
        ((((j : Int) - (i : Int)) % (N : Int) : Int) : ℚ) ≤ halfMovesOf N)) ∧
      playOutcome (halfMovesOf N) i j = resolveSpec N i j ∧
      helpOutcome (halfMovesOf N) i j = resolveSpec N i j := by
  have hN := odd_decompose N hodd
  generalize (N - 1) / 2 = k at hN
  subst hN
  refine ⟨?_, ?_, ?_⟩
  · intro hij
    rw [code_condition_odd, halfMovesOf_odd, circular_distance (2 * k + 1) i j hi hj]
    have hq : ∀ d : Int, ((d : ℚ) ≤ (k : ℚ) ↔ d ≤ (k : Int)) := by
      intro d
      constructor
      · intro h; exact_mod_cast h
      · intro h; exact_mod_cast h
    rw [hq]
    split <;> push_cast <;> omega
  · rw [playOutcome_odd, resolveSpec_odd k i j hi hj]
  · rw [helpOutcome_odd, resolveSpec_odd k i j hi hj]

/-- Claim C4: a draw exactly on the diagonal. For odd `N ≥ 3` and `i`, `j` below `N`,
the outcome `Game.play` computes for (user `i`, computer `j`) is `Draw` if and only if
`i = j`. -/
theorem play_draw_iff_same_index (N i j : Nat) (_hodd : N % 2 = 1) (_h3 : 3 ≤ N)
    (_hi : i < N) (_hj : j < N) :
    playOutcome (halfMovesOf N) i j = Outcome.Draw ↔ i = j := by
  unfold playOutcome
  constructor
  · intro h
    by_cases hij : (i : Int) = (j : Int)
    · exact_mod_cast hij
    · rw [if_neg hij] at h
      split at h <;> cases h
  · intro h
    subst h
    simp

/-! ## Concrete games -/

theorem indexOf_getElem_nodup (moves : List String) (hnd : moves.Nodup) (j : Nat)
    (hj : j < moves.length) : indexOf moves moves[j] = (j : Int) := by
  have h : moves.indexOf moves[j] = j := List.indexOf_getElem hnd j hj
  unfold indexOf
  rw [h, if_pos hj]

theorem constructor_eq_some (H : List Byte → String → String) (moves : List String)
    (key : List Byte) (r : Nat) (hr : r < moves.length) :
    Game.constructor H moves key r =
      some
        { moves := moves
          halfMoves := halfMovesOf moves.length
          key := key
          computerMove := moves[r]
          hmac := H key moves[r] } := by
  unfold Game.constructor
  rw [List.get?_eq_getElem? , List.getElem?_eq_getElem hr]

theorem result_of_constructor (H : List Byte → String → String) (moves : List String)
    (key : List Byte) (r : Nat) (hnd : moves.Nodup) (hr : r < moves.length) (i : Nat) :
    (Game.constructor H moves key r).map (fun g => g.result i) =
      some (playOutcome (halfMovesOf moves.length) i r) := by
  rw [constructor_eq_some H moves key r hr]
  simp only [Option.map_some', Game.result, indexOf_getElem_nodup moves hnd r hr]

theorem rps3_nodup : rps3.Nodup := by decide

theorem rps5_nodup : rps5.Nodup := by decide

theorem three_moves_outcomes :
    playOutcome (halfMovesOf 3) 0 1 = Outcome.Win ∧
      playOutcome (halfMovesOf 3) 0 2 = Outcome.Lose ∧
      playOutcome (halfMovesOf 3) 1 2 = Outcome.Win := by
  have h := playOutcome_odd 1
  refine ⟨?_, ?_, ?_⟩
  · exact (h 0 1).trans (by decide)
  · exact (h 0 2).trans (by decide)
  · exact (h 1 2).trans (by decide)

/-- The rule as the specification words it gives the same results on these pairs. -/
theorem resolveSpec_scenarios :
    resolveSpec 3 0 1 = Outcome.Win ∧ resolveSpec 3 0 2 = Outcome.Lose ∧
      resolveSpec 3 1 2 = Outcome.Win ∧ resolveSpec 5 0 3 = Outcome.Lose ∧
      resolveSpec 5 0 1 = Outcome.Win ∧ resolveSpec 5 2 4 = Outcome.Win := by
  decide

theorem five_moves_outcomes :
    playOutcome (halfMovesOf 5) 0 3 = Outcome.Lose ∧
      playOutcome (halfMovesOf 5) 0 1 = Outcome.Win ∧
      playOutcome (halfMovesOf 5) 2 4 = Outcome.Win := by
  have h := playOutcome_odd 2
  refine ⟨?_, ?_, ?_⟩
  · exact (h 0 3).trans (by decide)
  · exact (h 0 1).trans (by decide)
  · exact (h 2 4).trans (by decide)

theorem play_of_constructor (H : List Byte → String → String) (moves : List String)
    (key : List Byte) (r : Nat) (hnd : moves.Nodup) (hr : r < moves.length) (i : Nat) :
    (Game.constructor H moves key r).map (fun g => g.play i) =
      some [Event.log ("Your move: " ++ moves.getD i "undefined"),
        Event.log ("Computer move: " ++ moves[r]),
        Event.log (Outcome.announce (playOutcome (halfMovesOf moves.length) i r)),
        Event.log ("HMAC key: " ++ toHex key)] := by
  rw [constructor_eq_some H moves key r hr]
  simp only [Option.map_some', Game.play, Game.result, indexOf_getElem_nodup moves hnd r hr]

theorem helpTable_of_constructor (H : List Byte → String → String) (moves : List String)
    (key : List Byte) (r k : Nat) (hr : r < moves.length) (hk : moves.length = 2 * k + 1) :
    (Game.constructor H moves key r).map (fun g => (g.helpHeader, g.helpTable)) =
      some ("PC Moves" :: moves,
        moves.enum.map fun p =>
          p.2 :: moves.enum.map fun q =>
            Outcome.cell
              (if p.1 = q.1 then Outcome.Draw
              else if (p.1 < q.1 ∧ q.1 ≤ p.1 + k) ∨ (q.1 < p.1 ∧ q.1 + k < p.1) then Outcome.Win
              else Outcome.Lose)) := by
  rw [constructor_eq_some H moves key r hr]
  simp only [Option.map_some', Game.helpHeader, Game.helpTable, Game.helpRow, hk,
    helpOutcome_odd]

/-- Claim C5, the code at the failing input. With moves rock, paper, scissors, whatever
the hash and the key: `play` logs `You win!` for the user's rock against the computer's
paper, `You lose!` for rock against scissors and `You win!` for paper against scissors,
where the claim lists lose, win, lose. The help table of the same game, printed under
the corner title `PC Moves`, reads the claim's values when the row is taken as the
computer's move: row paper, column rock is `Lose`; row scissors, column rock is `Win`;
row scissors, column paper is `Lose`. -/
theorem three_moves_play_against_table (H : List Byte → String → String)
    (key : List Byte) :
    (Game.constructor H rps3 key 1).map (fun g => g.play 0) =
        some [Event.log "Your move: rock", Event.log "Computer move: paper",
          Event.log "You win!", Event.log ("HMAC key: " ++ toHex key)] ∧
      (Game.constructor H rps3 key 2).map (fun g => g.play 0) =
        some [Event.log "Your move: rock", Event.log "Computer move: scissors",
          Event.log "You lose!", Event.log ("HMAC key: " ++ toHex key)] ∧
      (Game.constructor H rps3 key 2).map (fun g => g.play 1) =
        some [Event.log "Your move: paper", Event.log "Computer move: scissors",
          Event.log "You win!", Event.log ("HMAC key: " ++ toHex key)] ∧
      (Game.constructor H rps3 key 1).map (fun g => (g.helpHeader, g.helpTable)) =
        some (["PC Moves", "rock", "paper", "scissors"],
          [["rock", "Draw", "Win", "Lose"],
            ["paper", "Lose", "Draw", "Win"],
            ["scissors", "Win", "Lose", "Draw"]]) := by
  have e := three_moves_outcomes
  refine ⟨?_, ?_, ?_, ?_⟩
  · rw [play_of_constructor H rps3 key 1 rps3_nodup (by decide) 0]
    have e1 : playOutcome (halfMovesOf rps3.length) ((0 : Nat) : Int) ((1 : Nat) : Int) =
        Outcome.Win := e.1
    rw [e1]
    rfl
  · rw [play_of_constructor H rps3 key 2 rps3_nodup (by decide) 0]
    have e2 : playOutcome (halfMovesOf rps3.length) ((0 : Nat) : Int) ((2 : Nat) : Int) =
        Outcome.Lose := e.2.1
    rw [e2]
    rfl
  · rw [play_of_constructor H rps3 key 2 rps3_nodup (by decide) 1]
    have e3 : playOutcome (halfMovesOf rps3.length) ((1 : Nat) : Int) ((2 : Nat) : Int) =
        Outcome.Win := e.2.2
    rw [e3]
    rfl
  · rw [helpTable_of_constructor H rps3 key 1 1 (by decide) rfl]
    decide

/-- Claim C6, the code at the failing input. With moves rock, paper, scissors, lizard,
spock, whatever the hash and the key: `play` logs `You lose!` for the user's rock against
the computer's lizard, `You win!` for rock against paper and `You win!` for scissors
against spock, where the claim lists win, lose, lose. The help table of the same game,
printed under the corner title `PC Moves`, reads the claim's values when the row is taken
as the computer's move: row lizard, column rock is `Win`; row paper, column rock is
`Lose`; row spock, column scissors is `Lose`. -/
theorem five_moves_play_against_table (H : List Byte → String → String)
    (key : List Byte) :
    (Game.constructor H rps5 key 3).map (fun g => g.play 0) =
        some [Event.log "Your move: rock", Event.log "Computer move: lizard",
          Event.log "You lose!", Event.log ("HMAC key: " ++ toHex key)] ∧
      (Game.constructor H rps5 key 1).map (fun g => g.play 0) =
        some [Event.log "Your move: rock", Event.log "Computer move: paper",
          Event.log "You win!", Event.log ("HMAC key: " ++ toHex key)] ∧
      (Game.constructor H rps5 key 4).map (fun g => g.play 2) =
        some [Event.log "Your move: scissors", Event.log "Computer move: spock",
          Event.log "You win!", Event.log ("HMAC key: " ++ toHex key)] ∧
      (Game.constructor H rps5 key 3).map (fun g => (g.helpHeader, g.helpTable)) =
        some (["PC Moves", "rock", "paper", "scissors", "lizard", "spock"],
          [["rock", "Draw", "Win", "Win", "Lose", "Lose"],
            ["paper", "Lose", "Draw", "Win", "Win", "Lose"],
            ["scissors", "Lose", "Lose", "Draw", "Win", "Win"],
            ["lizard", "Win", "Lose", "Lose", "Draw", "Win"],
            ["spock", "Win", "Win", "Lose", "Lose", "Draw"]]) := by
  have e := five_moves_outcomes
  refine ⟨?_, ?_, ?_, ?_⟩
  · rw [play_of_constructor H rps5 key 3 rps5_nodup (by decide) 0]
    have e1 : playOutcome (halfMovesOf rps5.length) ((0 : Nat) : Int) ((3 : Nat) : Int) =
        Outcome.Lose := e.1
    rw [e1]
    rfl
  · rw [play_of_constructor H rps5 key 1 rps5_nodup (by decide) 0]
    have e2 : playOutcome (halfMovesOf rps5.length) ((0 : Nat) : Int) ((1 : Nat) : Int) =
        Outcome.Win := e.2.1
    rw [e2]
    rfl
  · rw [play_of_constructor H rps5 key 4 rps5_nodup (by decide) 2]
    have e3 : playOutcome (halfMovesOf rps5.length) ((2 : Nat) : Int) ((4 : Nat) : Int) =
        Outcome.Win := e.2.2
    rw [e3]
    rfl
  · rw [helpTable_of_constructor H rps5 key 3 2 (by decide) rfl]
    decide

/-! ## Commitment -/

theorem hexDigit_injective (a b : Nat) (ha : a < 16) (hb : b < 16)
    (h : hexDigit a = hexDigit b) : a = b := by
  interval_cases a <;> interval_cases b <;> first | rfl | (exact absurd h (by decide))

theorem toHex_injective (k1 k2 : List Byte) (h : toHex k1 = toHex k2) : k1 = k2 := by
  unfold toHex at h
  have h' := congrArg String.data h
  simp only at h'
  clear h
  induction k1 generalizing k2 with
  | nil =>
    cases k2 with
    | nil => rfl
    | cons b t => simp at h'
  | cons a s ih =>
    cases k2 with
    | nil => simp at h'
    | cons b t =>
      simp only [List.flatMap_cons, List.cons_append, List.nil_append, List.cons.injEq] at h'
      obtain ⟨h1, h2, h3⟩ := h'
      have e1 := hexDigit_injective _ _ (by omega) (by omega) h1
      have e2 := hexDigit_injective _ _ (by omega) (by omega) h2
      have hab : a = b := by
        apply Fin.ext
        omega
      rw [hab, ih t h3]

/-- Claim C7: commit and reveal agree, for an arbitrary keyed hash `H`. For every move
list, key `K` and chosen move `M` (the move at the drawn index), the constructor
succeeds, the digest it stores and `printHmac` prints is `H K M`, every call of `play`
prints that `M` as the computer move and the hexadecimal text of that `K` as the key,
and any key with the printed hexadecimal text hashes `M` to the published digest. The
methods only read the fields of the game. -/
theorem commit_reveal_round_trip (H : List Byte → String → String) (moves : List String)
    (K : List Byte) (r : Nat) (M : String) (hM : moves.get? r = some M) :
    ∃ g, Game.constructor H moves K r = some g ∧
      g.hmac = H K M ∧
      g.printHmac = [Event.log ("HMAC: " ++ H K M)] ∧
      (∀ userMoveIndex, ∃ l0 l2, g.play userMoveIndex =
        [l0, Event.log ("Computer move: " ++ M), l2, Event.log ("HMAC key: " ++ toHex K)]) ∧
      (∀ K2, toHex K2 = toHex K → H K2 M = g.hmac) := by
  refine ⟨{ moves := moves, halfMoves := halfMovesOf moves.length, key := K,
            computerMove := M, hmac := H K M }, ?_, rfl, rfl, ?_, ?_⟩
  · unfold Game.constructor
    rw [hM]
  · intro userMoveIndex
    exact ⟨_, _, rfl⟩
  · intro K2 h
    rw [toHex_injective K2 K h]

/-- The round trip of claim C7 on rock, paper, scissors with the key bytes 01 ff and
the computer on scissors. -/
theorem commit_reveal_round_trip_witness :
    ∃ g, Game.constructor constHash rps3 [1, 255] 2 = some g ∧
      g.hmac = constHash [1, 255] "scissors" ∧
      g.printHmac = [Event.log ("HMAC: " ++ constHash [1, 255] "scissors")] ∧
      (∀ userMoveIndex, ∃ l0 l2, g.play userMoveIndex =
        [l0, Event.log ("Computer move: " ++ "scissors"), l2,
          Event.log ("HMAC key: " ++ toHex [1, 255])]) ∧
      (∀ K2, toHex K2 = toHex [1, 255] → constHash K2 "scissors" = g.hmac) :=
  commit_reveal_round_trip constHash rps3 [1, 255] 2 "scissors" rfl

/-! ## Validation -/

theorem card_toFinset_eq_length_iff (args : List String) :
    args.toFinset.card = args.length ↔ args.Nodup := by
  constructor
  · intro h
    rw [List.card_toFinset] at h
    have hs : args.dedup = args := (List.dedup_sublist args).eq_of_length h
    rw [← hs]
    exact List.nodup_dedup args
  · intro h
    exact List.toFinset_card_of_nodup h

/-- Claim C8: `Validator.validateArgs` returns normally exactly on the move lists of
odd length at least three with pairwise distinct labels. On every other list it writes
two lines and exits with status 1, and the script then constructs no `Game` and does
nothing more. -/
theorem validateArgs_rejects_exactly_invalid (args : List String) :
    (Validator.validateArgs args = Except.ok () ↔
        args.length % 2 = 1 ∧ 3 ≤ args.length ∧ args.Nodup) ∧
      (¬ (args.length % 2 = 1 ∧ 3 ≤ args.length ∧ args.Nodup) →
        ∃ l1 l2, Validator.validateArgs args =
            Except.error [Event.log l1, Event.log l2, Event.exit 1] ∧
          ∀ H key r answers, (main H args key r answers).game = none ∧
            (main H args key r answers).events =
              [Event.log l1, Event.log l2, Event.exit 1]) := by
  have hcases : (Validator.validateArgs args = Except.ok () ∧
        (args.length % 2 = 1 ∧ 3 ≤ args.length ∧ args.Nodup)) ∨
      (¬ (args.length % 2 = 1 ∧ 3 ≤ args.length ∧ args.Nodup) ∧
        ∃ l1 l2, Validator.validateArgs args =
          Except.error [Event.log l1, Event.log l2, Event.exit 1]) := by
    unfold Validator.validateArgs
    by_cases h1 : args.length < 3 ∨ args.length % 2 = 0
    · right
      rw [if_pos h1]
      exact ⟨by omega, _, _, rfl⟩
    · rw [if_neg h1]
      by_cases h2 : args.toFinset.card ≠ args.length
      · right
        rw [if_pos h2]
        refine ⟨?_, _, _, rfl⟩
        intro hv
        exact h2 ((card_toFinset_eq_length_iff args).mpr hv.2.2)
      · left
        rw [if_neg h2]
        refine ⟨rfl, by omega, by omega, ?_⟩
        exact (card_toFinset_eq_length_iff args).mp (not_not.mp h2)
  rcases hcases with ⟨hok, hv⟩ | ⟨hnv, l1, l2, herr⟩
  · exact ⟨⟨fun _ => hv, fun _ => hok⟩, fun h => absurd hv h⟩
  · refine ⟨⟨?_, fun h => absurd h hnv⟩, fun _ => ⟨l1, l2, herr, ?_⟩⟩
    · intro h
      rw [herr] at h
      cases h
    · intro H key r answers
      unfold main
      rw [herr]
      exact ⟨rfl, rfl⟩

/-! ## The help table and the announced result -/

theorem playOutcome_eq_helpOutcome (h : ℚ) (i j : Nat) :
    playOutcome h i j = helpOutcome h i j := by
  unfold playOutcome helpOutcome
  simp only [Int.cast_natCast, Nat.cast_inj, gt_iff_lt, Nat.cast_lt]

theorem helpTable_cell (g : Game) (i j : Nat) (hi : i < g.moves.length)
    (hj : j < g.moves.length) :
    (g.helpTable.get? i).bind (fun row => row.get? (j + 1)) =
      some (helpOutcome g.halfMoves i j).cell := by
  simp [Game.helpTable, Game.helpRow, List.getElem?_enum, List.getElem?_eq_getElem hi,
    List.getElem?_eq_getElem hj]

theorem helpTable_label (g : Game) (i : Nat) (hi : i < g.moves.length) :
    (g.helpTable.get? i).bind (fun row => row.get? 0) = some g.moves[i] := by
  simp [Game.helpTable, Game.helpRow, List.getElem?_enum, List.getElem?_eq_getElem hi]

/-- Claim C9: the help table and the announced result agree. For a move list with
pairwise distinct labels and odd length at least three, a user index `i` and a drawn
computer index `j` below the length, the game is constructed, `play i` announces some
outcome `o` (after recovering the computer index with `indexOf`), and cell `(i, j)` of
the table of `printHelp` is the same `o`; row `i` is labelled with move `i`, column `j`
is titled with move `j`, and the diagonal cell of row `i` is `Draw`. -/
theorem play_result_is_help_cell (H : List Byte → String → String) (moves : List String)
    (key : List Byte) (i j : Nat) (hnd : moves.Nodup) (_hodd : moves.length % 2 = 1)
    (_h3 : 3 ≤ moves.length) (hi : i < moves.length) (hj : j < moves.length) :
    ∃ g o, Game.constructor H moves key j = some g ∧
      g.play i = [Event.log ("Your move: " ++ moves[i]),
        Event.log ("Computer move: " ++ moves[j]),
        Event.log (Outcome.announce o),
        Event.log ("HMAC key: " ++ toHex key)] ∧
      (g.helpTable.get? i).bind (fun row => row.get? (j + 1)) = some (Outcome.cell o) ∧
      (g.helpTable.get? i).bind (fun row => row.get? 0) = some moves[i] ∧
      g.helpHeader.get? (j + 1) = some moves[j] ∧
      (g.helpTable.get? i).bind (fun row => row.get? (i + 1)) = some "Draw" := by
  refine ⟨_, playOutcome (halfMovesOf moves.length) i j,
    constructor_eq_some H moves key j hj, ?_, ?_, ?_, ?_, ?_⟩
  · simp only [Game.play, Game.result, indexOf_getElem_nodup moves hnd j hj,
      List.getD_eq_getElem?_getD, List.getElem?_eq_getElem hi, Option.getD_some]
  · rw [helpTable_cell _ i j hi hj, playOutcome_eq_helpOutcome]
  · exact helpTable_label _ i hi
  · simp [Game.helpHeader, List.getElem?_eq_getElem hj]
  · rw [helpTable_cell _ i i hi hi]
    simp [helpOutcome, Outcome.cell]

/-- The agreement of claim C9 on rock, paper, scissors with the user on rock and the
computer on paper. -/
theorem play_result_is_help_cell_witness :
    ∃ g o, Game.constructor constHash rps3 [7] 1 = some g ∧
      g.play 0 = [Event.log ("Your move: " ++ "rock"),
        Event.log ("Computer move: " ++ "paper"),
        Event.log (Outcome.announce o),
        Event.log ("HMAC key: " ++ toHex [7])] ∧
      (g.helpTable.get? 0).bind (fun row => row.get? (1 + 1)) = some (Outcome.cell o) ∧
      (g.helpTable.get? 0).bind (fun row => row.get? 0) = some "rock" ∧
      g.helpHeader.get? (1 + 1) = some "paper" ∧
      (g.helpTable.get? 0).bind (fun row => row.get? (0 + 1)) = some "Draw" :=
  play_result_is_help_cell constHash rps3 [7] 0 1 rps3_nodup (by decide) (by decide)
    (by decide) (by decide)

/-! ## Ordering of commitment, input and reveal -/

theorem isPrefixOf_append_take (p a b : List Char) (h : p.isPrefixOf (a ++ b) = true) :
    (p.take a.length).isPrefixOf a = true := by
  induction p generalizing a with
  | nil => simp
  | cons c p ih =>
    cases a with
    | nil => simp
    | cons d a =>
      simp only [List.cons_append, List.isPrefixOf, Bool.and_eq_true] at h
      simp only [List.length_cons, List.take_succ_cons, List.isPrefixOf, Bool.and_eq_true]
      exact ⟨h.1, ih a h.2⟩

theorem isPrefixOf_self_append (p x : List Char) : p.isPrefixOf (p ++ x) = true := by
  induction p with
  | nil => simp
  | cons c p ih => simp [List.isPrefixOf, ih]

/-- A logged line that opens with `a` is no key line when `a` already departs from
`HMAC key: `. -/
theorem not_keyLine_of_head (a : String) (x : String)
    (ha : (keyLineHead.take a.data.length).isPrefixOf a.data = false) :
    (Event.log (a ++ x)).isKeyLine = false := by
  cases hk : (Event.log (a ++ x)).isKeyLine with
  | false => rfl
  | true =>
    simp only [Event.isKeyLine, String.data_append] at hk
    rw [isPrefixOf_append_take _ _ _ hk] at ha
    cases ha

theorem toDigitsCore_head (fuel n : Nat) (ds : List Char)
    (hds : ∀ c, ds.head? = some c → c ≠ 'H') :
    ∀ c, (Nat.toDigitsCore 10 fuel n ds).head? = some c → c ≠ 'H' := by
  induction fuel generalizing n ds with
  | zero => simpa [Nat.toDigitsCore] using hds
  | succ f ih =>
    have hd : Nat.digitChar (n % 10) ≠ 'H' := by
      have hlt : n % 10 < 10 := Nat.mod_lt _ (by decide)
      generalize n % 10 = m at hlt
      interval_cases m <;> decide
    unfold Nat.toDigitsCore
    dsimp only
    split
    · intro c hc
      simp only [List.head?_cons, Option.some.injEq] at hc
      rw [← hc]
      exact hd
    · apply ih
      intro c hc
      simp only [List.head?_cons, Option.some.injEq] at hc
      rw [← hc]
      exact hd

theorem not_keyLine_of_number (n : Nat) (x : String) :
    (Event.log (toString n ++ " - " ++ x)).isKeyLine = false := by
  have hh := toDigitsCore_head (n + 1) n [] (by simp)
  have hdata : (toString n ++ " - " ++ x).data =
      Nat.toDigitsCore 10 (n + 1) n [] ++ (' ' :: '-' :: ' ' :: x.data) := by
    simp only [String.data_append, List.append_assoc]
    rfl
  simp only [Event.isKeyLine, hdata]
  cases hd : Nat.toDigitsCore 10 (n + 1) n [] with
  | nil => rfl
  | cons c cs =>
    have hc : c ≠ 'H' := hh c (by rw [hd]; rfl)
    simp only [keyLineHead, List.cons_append, List.isPrefixOf, Bool.and_eq_false_imp]
    intro h
    exact absurd (by simpa using h) (fun e : 'H' = c => hc e.symm)

theorem printHmac_no_keyLine (g : Game) : ∀ e ∈ g.printHmac, e.isKeyLine = false := by
  intro e he
  simp only [Game.printHmac, List.mem_singleton] at he
  rw [he]
  exact not_keyLine_of_head "HMAC: " g.hmac (by decide)

theorem printMoves_no_keyLine (g : Game) : ∀ e ∈ g.printMoves, e.isKeyLine = false := by
  intro e he
  simp only [Game.printMoves, List.mem_append, List.mem_singleton, List.mem_map,
    List.mem_cons, List.not_mem_nil, or_false] at he
  rcases he with (he | ⟨p, _, he⟩) | he | he
  · rw [he]; decide
  · rw [← he]
    exact not_keyLine_of_number (p.1 + 1) p.2
  · rw [he]; decide
  · rw [he]; decide

theorem separator_no_keyLine (w : Option Nat) :
    (Event.log (padEnd "+" w ++ "+")).isKeyLine = false := by
  cases w with
  | none => exact not_keyLine_of_head "+" "+" (by decide)
  | some n =>
    simp only [padEnd, String.append_assoc]
    exact not_keyLine_of_head "+" _ (by decide)

theorem tableLine_no_keyLine (w : Option Nat) (row : List String) :
    (Event.log (tableLine w row)).isKeyLine = false := by
  simp only [tableLine, String.append_assoc]
  exact not_keyLine_of_head "|" _ (by decide)

theorem printHelp_no_keyLine (g : Game) : ∀ e ∈ g.printHelp, e.isKeyLine = false := by
  intro e he
  simp only [Game.printHelp, List.mem_append, List.mem_cons, List.not_mem_nil, or_false,
    List.mem_flatMap] at he
  rcases he with (he | he | he | he) | ⟨row, _, he | he⟩
  · rw [he]; decide
  · rw [he]; exact separator_no_keyLine _
  · rw [he]; exact tableLine_no_keyLine _ _
  · rw [he]; exact separator_no_keyLine _
  · rw [he]; exact tableLine_no_keyLine _ _
  · rw [he]; exact separator_no_keyLine _

theorem play_keyLine (g : Game) (userMoveIndex : Nat) :
    ∃ e0 e1 e2, g.play userMoveIndex = [e0, e1, e2, Event.log ("HMAC key: " ++ toHex g.key)] ∧
      e0.isKeyLine = false ∧ e1.isKeyLine = false ∧ e2.isKeyLine = false ∧
      (Event.log ("HMAC key: " ++ toHex g.key)).isKeyLine = true := by
  refine ⟨_, _, _, rfl, ?_, ?_, ?_, ?_⟩
  · exact not_keyLine_of_head "Your move: " _ (by decide)
  · exact not_keyLine_of_head "Computer move: " _ (by decide)
  · cases g.result userMoveIndex <;> decide
  · simp only [Event.isKeyLine, String.data_append, keyLineHead]
    exact isPrefixOf_self_append _ _

theorem acceptedIndex_lt (g : Game) (answer : String) (idx : Nat)
    (h : acceptedIndex g answer = some idx) : idx < g.moves.length := by
  unfold acceptedIndex at h
  split at h
  · cases h
  · split at h
    · cases h
    · cases h
      omega

/-- Every run of `promptMove` is a stretch without a key line, followed either by nothing
or by an accepted answer, the output of `play` on its index, and the exit. -/
theorem promptMove_shape (g : Game) (answers : List String) :
    ∃ pre post, Menu.promptMove g answers = pre ++ post ∧
      (∀ e ∈ pre, e.isKeyLine = false) ∧
      (post = [] ∨ ∃ txt idx, txt ∈ answers ∧ acceptedIndex g txt = some idx ∧
        post = Event.answer txt :: (g.play idx ++ [Event.exit 0])) := by
  induction answers with
  | nil =>
    refine ⟨Menu.promptMove g [], [], by simp, ?_, Or.inl rfl⟩
    intro e he
    simp only [Menu.promptMove, List.mem_append, List.mem_singleton] at he
    rcases he with he | he
    · exact printMoves_no_keyLine g e he
    · rw [he]; rfl
  | cons answer rest ih =>
    obtain ⟨pre, post, hrun, hpre, hpost⟩ := ih
    have hfront : ∀ e ∈ g.printMoves ++ [Event.question "Enter your move: "],
        e.isKeyLine = false := by
      intro e he
      simp only [List.mem_append, List.mem_singleton] at he
      rcases he with he | he
      · exact printMoves_no_keyLine g e he
      · rw [he]; rfl
    have hpost2 : post = [] ∨ ∃ txt idx, txt ∈ answer :: rest ∧
        acceptedIndex g txt = some idx ∧
        post = Event.answer txt :: (g.play idx ++ [Event.exit 0]) := by
      rcases hpost with h | ⟨txt, idx, hm, ha, hp⟩
      · exact Or.inl h
      · exact Or.inr ⟨txt, idx, List.mem_cons_of_mem _ hm, ha, hp⟩
    unfold Menu.promptMove
    by_cases h0 : answer = "0"
    · rw [if_pos h0]
      refine ⟨_, [], (List.append_nil _).symm, ?_, Or.inl rfl⟩
      intro e he
      simp only [List.mem_append, List.mem_cons, List.mem_singleton, List.not_mem_nil,
        or_false] at he
      rcases he with (he | he | he) | he | he
      · exact printMoves_no_keyLine g e he
      · rw [he]; rfl
      · rw [he]; rfl
      · rw [he]; decide
      · rw [he]; rfl
    · rw [if_neg h0]
      by_cases hq : answer = "?"
      · rw [if_pos hq, hrun]
        refine ⟨g.printMoves ++ [Event.question "Enter your move: ", Event.answer answer] ++
          (g.printHelp ++ pre), post, by simp, ?_, hpost2⟩
        intro e he
        simp only [List.mem_append, List.mem_cons, List.mem_singleton, List.not_mem_nil,
          or_false] at he
        rcases he with (he | he | he) | he | he
        · exact printMoves_no_keyLine g e he
        · rw [he]; rfl
        · rw [he]; rfl
        · exact printHelp_no_keyLine g e he
        · exact hpre e he
      · rw [if_neg hq]
        cases hacc : acceptedIndex g answer with
        | none =>
          simp only [hrun]
          refine ⟨g.printMoves ++ [Event.question "Enter your move: ", Event.answer answer] ++
            ([Event.log "Error: Invalid move."] ++ pre), post, by simp, ?_, hpost2⟩
          intro e he
          simp only [List.mem_append, List.mem_cons, List.mem_singleton, List.not_mem_nil,
            or_false] at he
          rcases he with (he | he | he) | he | he
          · exact printMoves_no_keyLine g e he
          · rw [he]; rfl
          · rw [he]; rfl
          · rw [he]; decide
          · exact hpre e he
        | some idx =>
          dsimp only
          refine ⟨g.printMoves ++ [Event.question "Enter your move: "],
            Event.answer answer :: (g.play idx ++ [Event.exit 0]), by simp, hfront,
            Or.inr ⟨answer, idx, List.mem_cons_self _ _, hacc, rfl⟩⟩

/-- Claim C10: the commitment comes before the input and before the reveal. Every run
of `Menu.start` is the digest line, then a stretch of events without any key line, then
either nothing or an accepted answer followed by the four lines of `Game.play` on its
index and the exit; of the lines of `play` the last, which carries the key, is a key line
and the three before it are not. Hence the digest line is
the first event, every prompt comes after it, and a key line at position `p` comes
after the digest line and right after the output of `play` began at an answer whose
index was accepted. -/
theorem commit_before_input_and_reveal (g : Game) (answers : List String) :
    (∃ pre post,
        Menu.start g answers = Event.log ("HMAC: " ++ g.hmac) :: (pre ++ post) ∧
        (∀ e ∈ pre, e.isKeyLine = false) ∧
        (post = [] ∨ ∃ txt idx e0 e1 e2, txt ∈ answers ∧ acceptedIndex g txt = some idx ∧
          idx < g.moves.length ∧
          g.play idx = [e0, e1, e2, Event.log ("HMAC key: " ++ toHex g.key)] ∧
          e0.isKeyLine = false ∧ e1.isKeyLine = false ∧ e2.isKeyLine = false ∧
          post = Event.answer txt :: (g.play idx ++ [Event.exit 0]))) ∧
      (Event.log ("HMAC key: " ++ toHex g.key)).isKeyLine = true ∧
      (Menu.start g answers)[0]? = some (Event.log ("HMAC: " ++ g.hmac)) ∧
      (∀ p q, (Menu.start g answers)[p]? = some (Event.question q) → 0 < p) ∧
      (∀ p e, (Menu.start g answers)[p]? = some e → e.isKeyLine = true →
        0 < p ∧ ∃ a txt idx, a < p ∧ (Menu.start g answers)[a]? = some (Event.answer txt) ∧
          acceptedIndex g txt = some idx ∧
          (Menu.start g answers).drop (a + 1) = g.play idx ++ [Event.exit 0] ∧
          p = a + 4) := by
  obtain ⟨pre, post, hrun, hpre, hpost⟩ := promptMove_shape g answers
  have hstart : Menu.start g answers = Event.log ("HMAC: " ++ g.hmac) :: (pre ++ post) := by
    unfold Menu.start
    rw [hrun]
    rfl
  have hdigest : (Event.log ("HMAC: " ++ g.hmac)).isKeyLine = false :=
    printHmac_no_keyLine g _ (List.mem_singleton.mpr rfl)
  refine ⟨⟨pre, post, hstart, hpre, ?_⟩, ?_, ?_, ?_, ?_⟩
  · rcases hpost with h | ⟨txt, idx, hm, ha, hp⟩
    · exact Or.inl h
    · obtain ⟨e0, e1, e2, hplay, h0, h1, h2, _⟩ := play_keyLine g idx
      exact Or.inr ⟨txt, idx, e0, e1, e2, hm, ha, acceptedIndex_lt g txt idx ha, hplay,
        h0, h1, h2, hp⟩
  · obtain ⟨_, _, _, _, _, _, _, hkey⟩ := play_keyLine g 0
    exact hkey
  · rw [hstart]
    exact List.getElem?_cons_zero
  · intro p q hp
    cases p with
    | zero =>
      rw [hstart] at hp
      simp at hp
    | succ n => exact Nat.succ_pos n
  · intro p e hp hk
    rw [hstart] at hp ⊢
    cases p with
    | zero =>
      simp only [List.getElem?_cons_zero, Option.some.injEq] at hp
      rw [← hp, hdigest] at hk
      cases hk
    | succ n =>
      refine ⟨Nat.succ_pos n, ?_⟩
      rw [List.getElem?_cons_succ] at hp
      by_cases hn : n < pre.length
      · rw [List.getElem?_append_left hn] at hp
        rw [hpre e (List.getElem?_mem hp)] at hk
        cases hk
      · rw [List.getElem?_append_right (Nat.le_of_not_lt hn)] at hp
        rcases hpost with h | ⟨txt, idx, _, ha, hpo⟩
        · rw [h] at hp
          simp at hp
        · obtain ⟨e0, e1, e2, hplay, h0, h1, h2, _⟩ := play_keyLine g idx
          have hm : n - pre.length = 4 := by
            rw [hpo, hplay] at hp
            generalize n - pre.length = m at hp
            rcases m with _ | _ | _ | _ | _ | _ | m
            · simp only [List.getElem?_cons_zero, Option.some.injEq] at hp
              rw [← hp] at hk
              cases hk
            · simp only [List.getElem?_cons_succ, List.cons_append, List.getElem?_cons_zero,
                Option.some.injEq] at hp
              rw [← hp, h0] at hk
              cases hk
            · simp only [List.getElem?_cons_succ, List.cons_append, List.getElem?_cons_zero,
                Option.some.injEq] at hp
              rw [← hp, h1] at hk
              cases hk
            · simp only [List.getElem?_cons_succ, List.cons_append, List.getElem?_cons_zero,
                Option.some.injEq] at hp
              rw [← hp, h2] at hk
              cases hk
            · rfl
            · simp only [List.getElem?_cons_succ, List.cons_append, List.nil_append,
                List.getElem?_cons_zero, Option.some.injEq] at hp
              rw [← hp] at hk
              cases hk
            · simp at hp
          have hge : pre.length ≤ n := Nat.le_of_not_lt hn
          refine ⟨pre.length + 1, txt, idx, by omega, ?_, ha, ?_, by omega⟩
          · rw [List.getElem?_cons_succ, List.getElem?_append_right (Nat.le_refl _), hpo,
              Nat.sub_self]
            exact List.getElem?_cons_zero
          · rw [List.drop_succ_cons, hpo]
            have h : List.drop (pre.length + 1)
                (pre ++ Event.answer txt :: (g.play idx ++ [Event.exit 0])) =
                List.drop 1 (Event.answer txt :: (g.play idx ++ [Event.exit 0])) :=
              List.drop_append 1
            rw [h]
            rfl

/-! ## Instances of the theorems with hypotheses -/

/-- Antisymmetry at five moves, indices 0 and 3. -/
theorem play_antisymmetric_witness :
    (playOutcome (halfMovesOf 5) ((0 : Nat) : Int) ((3 : Nat) : Int) = Outcome.Win ↔
        playOutcome (halfMovesOf 5) ((3 : Nat) : Int) ((0 : Nat) : Int) = Outcome.Lose) ∧
      ¬ (playOutcome (halfMovesOf 5) ((0 : Nat) : Int) ((3 : Nat) : Int) = Outcome.Win ∧
        playOutcome (halfMovesOf 5) ((3 : Nat) : Int) ((0 : Nat) : Int) = Outcome.Win) :=
  play_antisymmetric 5 0 3 (by decide) (by decide) (by decide) (by decide) (by decide)

/-- Balance at five moves, index 4. -/
theorem play_balanced_witness :
    halfMovesOf 5 = (((5 - 1) / 2 : Nat) : ℚ) ∧
      ((Finset.range 5).filter fun (j : Nat) =>
        playOutcome (halfMovesOf 5) ((4 : Nat) : Int) j = Outcome.Win).card = (5 - 1) / 2 ∧
      ((Finset.range 5).filter fun (j : Nat) =>
        playOutcome (halfMovesOf 5) ((4 : Nat) : Int) j = Outcome.Lose).card = (5 - 1) / 2 :=
  play_balanced 5 4 (by decide) (by decide) (by decide)

/-- Agreement with the circular distance at five moves, cell (4, 1). -/
theorem play_help_match_circular_distance_witness :
    ((4 : Nat) ≠ 1 →
      ((((1 : Nat) : Int) > ((4 : Nat) : Int) ∧
          ((((1 : Nat) : Int) : ℚ)) ≤ ((((4 : Nat) : Int) : ℚ)) + halfMovesOf 5) ∨
        (((1 : Nat) : Int) < ((4 : Nat) : Int) ∧
          ((((1 : Nat) : Int) : ℚ)) < ((((4 : Nat) : Int) : ℚ)) - halfMovesOf 5) ↔
      1 ≤ (((1 : Nat) : Int) - ((4 : Nat) : Int)) % ((5 : Nat) : Int) ∧
        ((((((1 : Nat) : Int) - ((4 : Nat) : Int)) % ((5 : Nat) : Int) : Int)) : ℚ) ≤
          halfMovesOf 5)) ∧
      playOutcome (halfMovesOf 5) ((4 : Nat) : Int) ((1 : Nat) : Int) = resolveSpec 5 4 1 ∧
      helpOutcome (halfMovesOf 5) 4 1 = resolveSpec 5 4 1 :=
  play_help_match_circular_distance 5 4 1 (by decide) (by decide) (by decide) (by decide)

/-- The diagonal at three moves, cell (2, 2). -/
theorem play_draw_iff_same_index_witness :
    playOutcome (halfMovesOf 3) ((2 : Nat) : Int) ((2 : Nat) : Int) = Outcome.Draw ↔
      (2 : Nat) = 2 :=
  play_draw_iff_same_index 3 2 2 (by decide) (by decide) (by decide) (by decide)

end RPS
